import Mathlib

/-
Verification of the scafall scaffolding engine.

The repository contains several historical revisions of the same engine.
Namespace `Scafall` embeds the in-memory-filesystem revision
(src/pkg/scafall.go): the template engine (`transform`), prompt
resolution (`askPrompts`, `readPromptFile`, `readOverrides`), collection
detection (`isCollection` and the choice enumeration of `collection`),
the tree walk (`apply`) and the orchestration (`create`).
Namespace `ScafallPath` embeds the path-based internal package
(src/unnamed/part_002): `findTransformableFiles`, `SourceFile.Transform`
and `Apply`.

Modelling conventions:
- Go maps whose values are strings are association lists
  (`List (String × String)`); assignment is `mapInsert` (overwrite).
- The billy filesystem is a list of entries in walk / directory-listing
  order; each entry carries its absolute path, a directory flag, file
  content and a permission mode.
- External collaborators keep their interface only: the toml decoder is a
  function `String → Except String _`, the interactive prompt UI
  (promptui Prompt.Run / Select.Run) is a function
  `Prompt → Except String String`, and the mutable package global
  `ReservedPromptVariables` is threaded as an explicit parameter.
- Errors are `Except String` / `Option String` values mirroring Go's
  `error` returns.
-/

namespace Scafall

/-! Basic data: string maps and the util helpers of the source. -/

/-- Association-list image of a Go `map[string]string` (and of the engine's
`map[string]interface{}`, whose values are always strings in the engine). -/
abbrev Bindings := List (String × String)

/-- Go map assignment `m[k] = v`: overwrite any previous binding of `k`. -/
def mapInsert (m : Bindings) (k v : String) : Bindings :=
  (k, v) :: m.filter (fun p => !(p.1 == k))

/-- Embeds the source helper `contains(strings []string, element string) bool`. -/
def contains (strings : List String) (element : String) : Bool :=
  strings.any (fun s => s == element)

/-- Embeds `strings.HasPrefix(s, pre)` (computed on the character lists). -/
def strStarts (pre s : String) : Bool := pre.data.isPrefixOf s.data

/-- Go `s[n:]` / `strings.TrimPrefix` remainder: drop the first `n`
characters. -/
def strDrop (s : String) (n : Nat) : String := String.mk (s.data.drop n)

/-- Whether a string contains a character. -/
def strContains (s : String) (c : Char) : Bool := s.data.contains c

/-! Template engine.  The source `transform` parses `data` with Go's
html/template (plus sprig function map) and executes it against the
variable map.  The engine's templates only use field references of the
binding map, so the modelled fragment is: literal text plus actions that
are field references with a nonempty alphanumeric/underscore name.  Any
other action is a parse failure, as it is for Go on the inputs appearing
below (an unclosed or malformed action).  Execution follows html/template:
a bound reference renders its HTML-escaped value; a missing map key
(missingkey=default) yields the untyped nil value, which the default
escapers of html/template drop, rendering nothing and raising no error. -/

/-- A parsed template piece: a literal character or a field reference. -/
inductive Chunk where
  | lit : Char → Chunk
  | ref : String → Chunk
deriving DecidableEq

/-- Characters allowed in a field-reference name. -/
def isIdentChar (c : Char) : Bool := c.isAlphanum || c == '_'

/-- Parser state: inside literal text, after one brace, after two braces,
collecting a reference name, or after the first closing brace. -/
inductive PState where
  | text
  | lbrace
  | open0
  | ident (buf : List Char)
  | close1 (buf : List Char)

/-- Character-by-character parser for the modelled template fragment. -/
def parseLoop : PState → List Char → Option (List Chunk)
  | .text, [] => some []
  | .text, c :: cs =>
      if c = '\x7b' then parseLoop .lbrace cs
      else (parseLoop .text cs).map (fun t => Chunk.lit c :: t)
  | .lbrace, [] => some [Chunk.lit '\x7b']
  | .lbrace, c :: cs =>
      if c = '\x7b' then parseLoop .open0 cs
      else (parseLoop .text cs).map (fun t => Chunk.lit '\x7b' :: Chunk.lit c :: t)
  | .open0, [] => none
  | .open0, c :: cs =>
      if c = '.' then parseLoop (.ident []) cs else none
  | .ident _, [] => none
  | .ident buf, c :: cs =>
      if isIdentChar c then parseLoop (.ident (buf ++ [c])) cs
      else if c = '\x7d' then
        if buf.isEmpty then none else parseLoop (.close1 buf) cs
      else none
  | .close1 _, [] => none
  | .close1 buf, c :: cs =>
      if c = '\x7d' then (parseLoop .text cs).map (fun t => Chunk.ref (String.mk buf) :: t)
      else none

/-- Parse a template string; `none` models a Go template parse error. -/
def parseTemplate (s : String) : Option (List Chunk) := parseLoop .text s.data

/-- The five replacements of html/template's default HTML escaper. -/
def htmlEscapeChar (c : Char) : String :=
  if c = '&' then "&amp;"
  else if c = Char.ofNat 39 then "&#39;"
  else if c = '<' then "&lt;"
  else if c = '>' then "&gt;"
  else if c = '"' then "&#34;"
  else String.singleton c

/-- HTML-escape a string as html/template's default escaper does. -/
def htmlEscape (s : String) : String := String.join (s.data.map htmlEscapeChar)

/-- Execute one template chunk against the bindings: a bound reference
renders its escaped value; a missing key renders nothing (the untyped nil
is dropped by the default escapers), with no error. -/
def execChunk (env : Bindings) : Chunk → String
  | .lit c => String.singleton c
  | .ref n =>
      match env.lookup n with
      | some v => htmlEscape v
      | none => ""

/-- Execute a parsed template against the bindings. -/
def execChunks (env : Bindings) (cs : List Chunk) : String :=
  String.join (cs.map (execChunk env))

/-- Embeds `transform(env *map[string]interface{}, data string) ([]byte, error)`:
parse the template (error `cannot parse file template` on failure) and
execute it; in the modelled fragment execution cannot fail. -/
def transform (env : Bindings) (data : String) : Except String String :=
  match parseTemplate data with
  | none => Except.error "cannot parse file template"
  | some cs => Except.ok (execChunks env cs)

/-! Prompt resolution. -/

/-- Embeds the `Prompt` record of the prompt-declaration file. -/
structure Prompt where
  name : String
  prompt : String
  required : Bool
  default : String
  choices : List String
deriving DecidableEq

/-- Embeds `Prompts`, the decoded prompt-declaration file. -/
structure Prompts where
  prompts : List Prompt
deriving DecidableEq

/-- Interface of the interactive prompt UI: one invocation of
`promptui.Prompt.Run` (free text, when `choices` is empty) or
`promptui.Select.Run` (closed choice), returning the answer or an error. -/
abbrev Asker := Prompt → Except String String

/-- Embeds `askPrompts(stdin, prompts, vars, overides)`.  For each prompt in
order: if the overrides map has the name, assign the override into `vars`;
then run the prompt UI regardless; if the UI returned no error, assign its
result into `vars`.  The function always returns a nil error. -/
def askPrompts (ask : Asker) (prompts : Prompts) (vars : Bindings)
    (overides : Bindings) : Except String Bindings :=
  Except.ok (prompts.prompts.foldl
    (fun vars prompt =>
      let vars :=
        match overides.lookup prompt.name with
        | some overide => mapInsert vars prompt.name overide
        | none => vars
      match ask prompt with
      | Except.ok result => mapInsert vars prompt.name result
      | Except.error _ => vars)
    vars)

/-! The billy filesystem and file reading. -/

/-- One filesystem entry: absolute path, directory flag, content, mode. -/
structure Entry where
  path : String
  isDir : Bool
  content : String
  mode : Nat
deriving DecidableEq

/-- A billy filesystem: its entries in walk / directory-listing order. -/
abbrev FS := List Entry

/-- Resolution of a possibly relative billy path against the root. -/
def absPath (name : String) : String :=
  if strStarts "/" name then name else "/" ++ name

/-- Embeds `bfs.Stat(name)`: find the entry at the resolved path. -/
def statFS (fs : FS) (name : String) : Option Entry :=
  fs.find? (fun e => e.path == absPath name)

/-- Embeds `readFile(bfs, name)`: open the file and read its content. -/
def readFile (fs : FS) (name : String) : Except String String :=
  match statFS fs name with
  | none => Except.error ("cannot open file " ++ name)
  | some e => Except.ok e.content

/-- Whether a path is an immediate child of the root. -/
def topLevel (p : String) : Bool :=
  strStarts "/" p && !(p == "/") && !(strContains (strDrop p 1) '/')

/-- Embeds `bfs.ReadDir("/")`: the immediate children of the root, in
listing order. -/
def readDirRoot (fs : FS) : List Entry := fs.filter (fun e => topLevel e.path)

/-- Embeds `entry.Name()` for an immediate child of the root. -/
def entryName (e : Entry) : String := strDrop e.path 1

/-! Constants and config reading. -/

def PromptFile : String := "prompts.toml"

def OverrideFile : String := ".override.toml"

/-- Initial value of the package-level mutable `ReservedPromptVariables`;
the functions below take the global's current value as a parameter. -/
def ReservedPromptVariables : List String := []

def IgnoredNames : List String := ["/" ++ PromptFile, "/" ++ OverrideFile, "/.git"]

/-- Embeds `isPrefixOf(path string, prefixes []string)`: `strings.HasPrefix`
of the path against each entry of the list. -/
def isPrefixOf (path : String) (prefixes : List String) : Bool :=
  prefixes.any (fun p => strStarts p path)

/-- Interface of the toml decoder for the prompt-declaration file. -/
abbrev PromptDecoder := String → Except String Prompts

/-- Interface of the toml decoder for the override file. -/
abbrev OverrideDecoder := String → Except String Bindings

/-- Embeds `readPromptFile(bfs, name)`: read the file, decode it, and fail
on the first prompt whose name is in the reserved set (the package global
`ReservedPromptVariables`, passed as `reserved`). -/
def readPromptFile (decode : PromptDecoder) (reserved : List String)
    (bfs : FS) (name : String) : Except String Prompts :=
  match readFile bfs name with
  | Except.error e => Except.error e
  | Except.ok promptData =>
      match decode promptData with
      | Except.error _ => Except.error (name ++ " file does not match required format")
      | Except.ok prompts =>
          match prompts.prompts.find? (fun p => contains reserved p.name) with
          | some p => Except.error (name ++ " file contains reserved variable: " ++ p.name)
          | none => Except.ok prompts

/-- Embeds `readOverrides(bfs, name)`: read the file, decode it, and fail
on the first key that is in the reserved set. -/
def readOverrides (decode : OverrideDecoder) (reserved : List String)
    (bfs : FS) (name : String) : Except String Bindings :=
  match readFile bfs name with
  | Except.error e => Except.error e
  | Except.ok overrideData =>
      match decode overrideData with
      | Except.error _ => Except.error (name ++ " file does not match required format")
      | Except.ok overrides =>
          match overrides.find? (fun kv => contains reserved kv.1) with
          | some kv => Except.error (name ++ " file contains reserved variable: " ++ kv.1)
          | none => Except.ok overrides

/-! Collection detection and the choice enumeration of `collection`. -/

/-- Embeds `isCollection(bfs)`: false if a top-level prompt file exists;
otherwise true iff some immediate child directory contains one. -/
def isCollection (bfs : FS) : Bool :=
  if (statFS bfs PromptFile).isSome then false
  else
    (readDirRoot bfs).any
      (fun e => e.isDir && (statFS bfs (entryName e ++ "/" ++ PromptFile)).isSome)

/-- Embeds the choice enumeration loop of `collection`: every immediate
child directory except `.git` is appended, in listing order. -/
def collectionChoices (bfs : FS) : List String :=
  (readDirRoot bfs).foldl
    (fun choices e =>
      if e.isDir && !(entryName e == ".git") then choices ++ [entryName e] else choices)
    []

/-- Stated from the spec's words, for comparison: the names of the
immediate subdirectories that directly contain a prompt-declaration file,
in listing order. -/
def specQualifyingChoices (bfs : FS) : List String :=
  ((readDirRoot bfs).filter
    (fun e => e.isDir && (statFS bfs (entryName e ++ "/" ++ PromptFile)).isSome)).map entryName

/-- Stated from the spec's words, for comparison: a path exactly matches
an always-ignored name or is nested under one. -/
def specIgnoredMatch (path : String) : Bool :=
  IgnoredNames.any (fun p => path == p || strStarts (p ++ "/") path)

/-! The tree walk `apply` and the output filesystem. -/

/-- Embeds `outFs.MkdirAll(path, 0755)`: idempotent directory creation. -/
def mkdirAllFS (fs : FS) (p : String) : FS :=
  if fs.any (fun e => e.path == p) then fs else fs ++ [⟨p, true, "", 0o755⟩]

/-- Embeds `outFs.OpenFile(path, O_CREATE|O_RDWR, mode)` plus `Write`. -/
def writeFileFS (fs : FS) (p : String) (content : String) (mode : Nat) : FS :=
  if fs.any (fun e => e.path == p)
  then fs.map (fun e => if e.path == p then ⟨p, false, content, mode⟩ else e)
  else fs ++ [⟨p, false, content, mode⟩]

/-- Embeds the walk callback of `apply` for one entry: skip entries whose
path has an ignored name as prefix; skip entries whose path fails to
transform (the callback returns nil on that error); create directories;
for files, read, transform the content (failure aborts), and write. -/
def applyStep (vars : Bindings) (bfs : FS) (outFs : FS) (e : Entry) :
    Except String FS :=
  if isPrefixOf e.path IgnoredNames then Except.ok outFs
  else
    match transform vars e.path with
    | Except.error _ => Except.ok outFs
    | Except.ok tpath =>
        if e.isDir then Except.ok (mkdirAllFS outFs tpath)
        else
          match readFile bfs e.path with
          | Except.error er => Except.error er
          | Except.ok fileData =>
              match transform vars fileData with
              | Except.error _ =>
                  Except.error ("failed to subsitute variables in " ++ tpath)
              | Except.ok transformed =>
                  Except.ok (writeFileFS outFs tpath transformed e.mode)

/-- The walk of `apply`: entries in order, aborting at the first error and
returning the partially built output filesystem with it. -/
def applyWalk (vars : Bindings) (bfs : FS) :
    List Entry → FS → FS × Option String
  | [], outFs => (outFs, none)
  | e :: es, outFs =>
      match applyStep vars bfs outFs e with
      | Except.error err => (outFs, some err)
      | Except.ok outFs2 => applyWalk vars bfs es outFs2

/-- Embeds `apply(bfs, vars)`: walk the whole source filesystem into a
fresh in-memory output filesystem. -/
def apply (bfs : FS) (vars : Bindings) : FS × Option String :=
  applyWalk vars bfs bfs []

/-- Embeds `copy(inFs, outFs)`: replicate the transformed filesystem into
the target; in the model the target writes cannot fail. -/
def copyFS (inFs : FS) (target : FS) : FS :=
  inFs.foldl
    (fun t e => if e.isDir then mkdirAllFS t e.path else writeFileFS t e.path e.content e.mode)
    target

/-! The orchestrating `create`. -/

/-- Embeds the `Scafall` receiver struct (its `Stdin` field is the asker
parameter of the functions below). -/
structure Config where
  vars : Bindings
  reserved : List String
deriving DecidableEq

/-- State of the output target on the host filesystem: whether the target
directory already exists, and its entries. -/
structure OsState where
  targetExists : Bool
  target : FS
deriving DecidableEq

/-- The prompt phase of `create`: if a prompt file exists, read it, read
the override file when present, and run `askPrompts` over the caller's
variables; otherwise the variables pass through unchanged. -/
def promptPhase (dp : PromptDecoder) (dO : OverrideDecoder) (ask : Asker)
    (reserved : List String) (s : Config) (bfs : FS) : Except String Bindings :=
  if (statFS bfs PromptFile).isSome then
    match readPromptFile dp reserved bfs PromptFile with
    | Except.error e => Except.error e
    | Except.ok prompts =>
        match
          (if (statFS bfs OverrideFile).isSome
           then readOverrides dO reserved bfs OverrideFile
           else Except.ok []) with
        | Except.error e => Except.error e
        | Except.ok overides => askPrompts ask prompts s.vars overides
  else Except.ok s.vars

/-- Embeds `create(s, bfs, targetDir)`: fail if the target directory
already exists; resolve prompts; `apply` the source; then create the
target directory and `copy` the transformed tree into it. -/
def create (dp : PromptDecoder) (dO : OverrideDecoder) (ask : Asker)
    (reserved : List String) (s : Config) (bfs : FS) (targetDir : String)
    (st : OsState) : OsState × Option String :=
  if st.targetExists then
    (st, some ("directory " ++ targetDir ++ " already exists"))
  else
    match promptPhase dp dO ask reserved s bfs with
    | Except.error e => (st, some e)
    | Except.ok vars =>
        match apply bfs vars with
        | (_, some err) => (st, some err)
        | (outFs, none) =>
            ({ targetExists := true, target := copyFS outFs st.target }, none)

end Scafall

namespace ScafallPath

/-! Embedding of the path-based internal package (src/unnamed/part_002).
The host filesystem is a walk of directory entries; each entry carries its
full walk path, a directory flag, the verdict of the content-sniffing
text detector (`isTextfile`, an external heuristic kept abstract as a
field), its content and its permission mode. -/

def PromptFile : String := "prompts.toml"

def OverrideFile : String := ".override.toml"

def IgnoredNames : List String := [PromptFile, OverrideFile]

def IgnoredDirectories : List String := [".git", "node_modules"]

/-- One entry of the `filepath.WalkDir` traversal of the input directory. -/
structure DirEntry where
  path : String
  isDir : Bool
  isText : Bool
  content : String
  mode : Nat
deriving DecidableEq

/-- Embeds the `SourceFile` record. -/
structure SourceFile where
  filePath : String
  fileContent : String
  fileMode : Nat
deriving DecidableEq

/-- Embeds `info.Name()`: the last segment of a walk path. -/
def nameOf (p : String) : String :=
  String.mk ((p.data.reverse.takeWhile (fun c => !(c == '/'))).reverse)

/-- Embeds `strings.TrimPrefix(p, pre)`. -/
def relPathOf (pre p : String) : String :=
  if Scafall.strStarts pre p then Scafall.strDrop p pre.data.length else p

/-- Whether a path lies inside one of the directories skipped so far
(`filepath.SkipDir` semantics of the walk). -/
def underAny (skips : List String) (p : String) : Bool :=
  skips.any (fun s => Scafall.strStarts (s ++ "/") p)

/-- Embeds the walk body of `findTransformableFiles`: skip the subtrees of
ignored directories; skip files named in `IgnoredNames` and files whose
path begins with the input root's `README` prefix; text files keep their
content (and the permission bits the source takes from the entry), other
files are recorded with empty content and zero mode. -/
def walkFiles (dir : String) : List DirEntry → List String → List SourceFile
  | [], _ => []
  | e :: es, skips =>
      if underAny skips e.path then walkFiles dir es skips
      else if e.isDir then
        if Scafall.contains IgnoredDirectories (nameOf e.path) then
          walkFiles dir es (e.path :: skips)
        else walkFiles dir es skips
      else if Scafall.contains IgnoredNames (nameOf e.path)
              || Scafall.strStarts (dir ++ "/README") e.path then
        walkFiles dir es skips
      else
        (if e.isText then
          SourceFile.mk (relPathOf (dir ++ "/") e.path) e.content e.mode
        else
          SourceFile.mk (relPathOf (dir ++ "/") e.path) "" 0) :: walkFiles dir es skips

/-- Embeds `findTransformableFiles(dir)` over the walk of the input tree. -/
def findTransformableFiles (dir : String) (tree : List DirEntry) : List SourceFile :=
  walkFiles dir tree []

/-- Stated from the spec for one chunk: a bound reference yields its
resolved value, an unbound reference is a substitution error. -/
def execChunkSpec (vars : Scafall.Bindings) : Scafall.Chunk → Except String String
  | .lit c => Except.ok (String.singleton c)
  | .ref n =>
      match vars.lookup n with
      | some v => Except.ok v
      | none => Except.error ("unresolved variable: " ++ n)

/-- Modelled from the spec: the template-substitution collaborator used by
`Replace` is not under src/.  Per the spec's TemplateEngine contract,
`Substitute(text, bindings)` returns the substituted text, failing on a
reference to an unbound variable. -/
def substituteSpec (vars : Scafall.Bindings) (text : String) : Except String String :=
  match Scafall.parseTemplate text with
  | none => Except.error "cannot parse template"
  | some cs => cs.foldlM (fun acc c => (execChunkSpec vars c).map (acc ++ ·)) ""

/-- Modelled from the spec: `Replace(vars, s)` is not under src/; per the
spec, substitution applies independently to the file's path and to its
content, propagating substitution errors. -/
def Replace (vars : Scafall.Bindings) (s : SourceFile) : Except String SourceFile :=
  match substituteSpec vars s.filePath with
  | Except.error e => Except.error e
  | Except.ok p =>
      match substituteSpec vars s.fileContent with
      | Except.error e => Except.error e
      | Except.ok c => Except.ok (SourceFile.mk p c s.fileMode)

/-- State of the host filesystem during `Apply`: the input tree and the
files written under the output directory (path, content, mode). -/
structure World where
  input : List DirEntry
  output : List (String × String × Nat)
deriving DecidableEq

/-- Embeds `SourceFile.Transform(inputDir, outputDir, vars)`: run `Replace`;
if the substituted content is empty, `os.Rename` the input file to the
output path (removing it from the input tree and carrying its on-disk
content and mode); otherwise `os.WriteFile` the substituted content with
mode `FileMode|0600`, leaving the input tree untouched. -/
def SourceFile.Transform (s : SourceFile) (inputDir outputDir : String)
    (vars : Scafall.Bindings) (w : World) : Except String World :=
  match Replace vars s with
  | Except.error e => Except.error e
  | Except.ok outputFile =>
      let outputPath := outputDir ++ "/" ++ outputFile.filePath
      if outputFile.fileContent == "" then
        let inputPath := inputDir ++ "/" ++ s.filePath
        match w.input.find? (fun e2 => e2.path == inputPath) with
        | none =>
            Except.error ("failed to rename " ++ s.filePath ++ " to " ++ outputFile.filePath)
        | some e2 =>
            Except.ok (World.mk (w.input.filter (fun e3 => !(e3.path == inputPath)))
              (w.output ++ [(outputPath, e2.content, e2.mode)]))
      else
        Except.ok (World.mk w.input
          (w.output ++ [(outputPath, outputFile.fileContent, Nat.lor outputFile.fileMode 0o600)]))

/-- The loop of `Apply` over the transformable files, aborting at the
first error with the wrapping message of the source. -/
def ApplyWalk (inputDir outputDir : String) (vars : Scafall.Bindings) :
    List SourceFile → World → World × Option String
  | [], w => (w, none)
  | f :: fs, w =>
      match f.Transform inputDir outputDir vars w with
      | Except.error e => (w, some ("failed to transform " ++ f.filePath ++ ": " ++ e))
      | Except.ok w2 => ApplyWalk inputDir outputDir vars fs w2

/-- Embeds `Apply(inputDir, vars, outputDir)`: find the transformable
files of the input tree, then transform each in order. -/
def Apply (inputDir : String) (vars : Scafall.Bindings) (outputDir : String)
    (w : World) : World × Option String :=
  ApplyWalk inputDir outputDir vars (findTransformableFiles inputDir w.input) w

end ScafallPath

namespace Scafall

/-! Concrete evaluations settling the error-handling claims about the
in-memory revision. -/

/-- C1 counterexample: the template text referencing the unbound variable
name does not make `transform` fail; it succeeds and renders the empty
string in place of the reference. -/
theorem transform_unbound_ref_succeeds_ce :
    parseTemplate "\x7b\x7b.name\x7d\x7d" = some [Chunk.ref "name"] ∧
    (([] : Bindings).lookup "name") = none ∧
    transform [] "\x7b\x7b.name\x7d\x7d" = Except.ok "" :=
  ⟨rfl, rfl, rfl⟩

/-- C2: with a caller override for the prompt name present, `askPrompts`
still invokes the interactive asker, and a successful answer overwrites
the override; only an asker failure leaves the override in place. -/
theorem askPrompts_override_still_prompts :
    askPrompts (fun _ => Except.ok "x")
        ⟨[⟨"n", "q", false, "d", []⟩]⟩ [] [("n", "c")] = Except.ok [("n", "x")] ∧
    askPrompts (fun _ => Except.error "eof")
        ⟨[⟨"n", "q", false, "d", []⟩]⟩ [] [("n", "c")] = Except.ok [("n", "c")] :=
  ⟨rfl, rfl⟩

/-- C5 counterexample: an asker that fails on the only prompt does not make
`askPrompts` fail; resolution reports success with no binding made. -/
theorem askPrompts_asker_error_not_fatal_ce :
    askPrompts (fun _ => Except.error "interrupt")
      ⟨[⟨"n", "q", true, "d", []⟩]⟩ [] [] = Except.ok [] :=
  rfl

/-- C8: a walk entry whose path fails template substitution is silently
skipped — `apply` on a source holding only that (non-ignored) file
produces an empty output and reports success instead of the error. -/
theorem apply_swallows_path_transform_error :
    transform [] "/x\x7b\x7b" = Except.error "cannot parse file template" ∧
    isPrefixOf "/x\x7b\x7b" IgnoredNames = false ∧
    apply [⟨"/x\x7b\x7b", false, "data", 420⟩] [] = ([], none) :=
  ⟨rfl, by decide, rfl⟩

/-- C6 counterexample: the path of a sibling file sharing an ignored name
as a string prefix is skipped by `apply` although it neither equals an
always-ignored name nor is nested under one. -/
theorem ignored_match_by_string_prefix_ce :
    isPrefixOf "/.gitignore" IgnoredNames = true ∧
    specIgnoredMatch "/.gitignore" = false ∧
    apply [⟨"/.gitignore", false, "x", 420⟩] [] = ([], none) :=
  ⟨by decide, by decide, rfl⟩

/-- C4 counterexample: a source with subdirectory a (holding a prompt
file) and subdirectory b (holding none) is detected as a collection, yet
the offered choices are the names of both subdirectories, not only of the
qualifying one. -/
theorem collection_choices_not_qualifying_ce :
    isCollection
        [⟨"/a", true, "", 493⟩, ⟨"/a/prompts.toml", false, "", 420⟩,
         ⟨"/b", true, "", 493⟩] = true ∧
    specQualifyingChoices
        [⟨"/a", true, "", 493⟩, ⟨"/a/prompts.toml", false, "", 420⟩,
         ⟨"/b", true, "", 493⟩] = ["a"] ∧
    collectionChoices
        [⟨"/a", true, "", 493⟩, ⟨"/a/prompts.toml", false, "", 420⟩,
         ⟨"/b", true, "", 493⟩] = ["a", "b"] ∧
    ¬ (["a", "b"] = ["a"]) :=
  ⟨by decide, by decide, by decide, by decide⟩

end Scafall

namespace ScafallPath

/-- C9 counterexample: materializing a source holding one file not
detected as text moves that file out of the source tree (the input tree
is empty afterwards), so the source is not left unmodified. -/
theorem apply_moves_binary_out_of_source_ce :
    Apply "/t" [] "/out" ⟨[⟨"/t/a.bin", false, false, "B", 420⟩], []⟩ =
      (⟨[], [("/out/a.bin", "B", 420)]⟩, none) ∧
    ¬ (([] : List DirEntry) = [⟨"/t/a.bin", false, false, "B", 420⟩]) :=
  ⟨rfl, by decide⟩

end ScafallPath

namespace Scafall

/-- C6 amended: entries whose path has an always-ignored name as a string
prefix are exactly no-ops of the walk (removing them from the walk list
does not change the result, so they contribute nothing to the output),
and the skip test is string-prefix matching against the ignored names. -/
theorem apply_ignores_by_string_prefix :
    ∀ (vars : Bindings) (bfs : FS) (entries : List Entry) (outFs : FS),
      applyWalk vars bfs entries outFs =
        applyWalk vars bfs
          (entries.filter (fun e => !(isPrefixOf e.path IgnoredNames))) outFs
    ∧ ∀ path : String,
        isPrefixOf path IgnoredNames = true ↔
          ∃ p, p ∈ IgnoredNames ∧ strStarts p path = true := by
  intro vars bfs entries outFs
  constructor
  · induction entries generalizing outFs with
    | nil => rfl
    | cons e es ih =>
        cases h : isPrefixOf e.path IgnoredNames with
        | true =>
            simp only [applyWalk, List.filter_cons, h, Bool.not_true, if_false]
            have hstep : applyStep vars bfs outFs e = Except.ok outFs := by
              simp [applyStep, h]
            rw [hstep]
            exact ih outFs
        | false =>
            simp only [applyWalk, List.filter_cons, h, Bool.not_false, if_true]
            cases hs : applyStep vars bfs outFs e with
            | error err => simp only [applyWalk, hs]
            | ok outFs2 => simp only [applyWalk, hs]; exact ih outFs2
  · intro path
    simp [isPrefixOf, List.any_eq_true]

/-- C4 amended: a source is detected as a collection iff it has no
top-level prompt file and some immediate subdirectory directly contains
one; but the offered choices are the names of all immediate
subdirectories other than git metadata, in listing order, whether or not
they contain a prompt file. -/
theorem collection_detection_and_choices :
    ∀ bfs : FS,
      (isCollection bfs = true ↔
        (statFS bfs PromptFile).isSome = false ∧
        ∃ e, e ∈ readDirRoot bfs ∧ e.isDir = true ∧
          (statFS bfs (entryName e ++ "/" ++ PromptFile)).isSome = true)
    ∧ collectionChoices bfs =
        ((readDirRoot bfs).filter
          (fun e => e.isDir && !(entryName e == ".git"))).map entryName := by
  intro bfs
  constructor
  · unfold isCollection
    cases h : (statFS bfs PromptFile).isSome with
    | true => simp [h]
    | false => simp [h, List.any_eq_true]
  · unfold collectionChoices
    have hfold : ∀ (l : List Entry) (acc : List String),
        l.foldl
          (fun choices e =>
            if e.isDir && !(entryName e == ".git") then choices ++ [entryName e]
            else choices) acc
          = acc ++ (l.filter (fun e => e.isDir && !(entryName e == ".git"))).map entryName := by
      intro l
      induction l with
      | nil => intro acc; simp
      | cons e es ih =>
          intro acc
          simp only [List.foldl_cons, List.filter_cons]
          by_cases h : (e.isDir && !(entryName e == ".git")) = true
          · rw [if_pos h, if_pos h, ih]
            simp
          · rw [if_neg h, if_neg h, ih]
    simpa using hfold (readDirRoot bfs) []

end Scafall

namespace Scafall

/-- C5 amended: prompt resolution never fails; when the asker returns an
error for a prompt, the error is ignored, the prompt keeps its override
binding (or none), and resolution reports success. -/
theorem askPrompts_never_fails :
    ∀ (ask : Asker) (ps : Prompts) (vars overides : Bindings),
      (∃ vs, askPrompts ask ps vars overides = Except.ok vs)
    ∧ ∀ (p : Prompt) (e : String), ask p = Except.error e →
        askPrompts ask ⟨[p]⟩ vars overides =
          Except.ok (match overides.lookup p.name with
                     | some o => mapInsert vars p.name o
                     | none => vars) := by
  intro ask ps vars overides
  refine ⟨⟨_, rfl⟩, ?_⟩
  intro p e he
  simp only [askPrompts, List.foldl_cons, List.foldl_nil, he]

/-- Witness for the C5 amended theorem at a concrete erroring asker. -/
theorem askPrompts_never_fails_witness :
    askPrompts (fun _ => Except.error "ctrl-c")
      ⟨[⟨"m", "q2", false, "", []⟩]⟩ [] [] = Except.ok [] := by
  have h := (askPrompts_never_fails (fun _ => Except.error "ctrl-c")
    ⟨[⟨"m", "q2", false, "", []⟩]⟩ [] []).2 ⟨"m", "q2", false, "", []⟩ "ctrl-c" rfl
  simpa using h

/-- C3: if the output target already exists, `create` fails with the
target-exists error and leaves the state untouched; and whenever `create`
succeeds, a second call against the resulting state (with any
collaborators, source and configuration) fails the same way and leaves
that state unmodified. -/
theorem create_no_clobber :
    ∀ (dp : PromptDecoder) (dO : OverrideDecoder) (ask : Asker)
      (reserved : List String) (s : Config) (bfs : FS) (targetDir : String)
      (st : OsState),
      (st.targetExists = true →
        create dp dO ask reserved s bfs targetDir st =
          (st, some ("directory " ++ targetDir ++ " already exists")))
    ∧ (∀ st2, create dp dO ask reserved s bfs targetDir st = (st2, none) →
        ∀ (dp2 : PromptDecoder) (dO2 : OverrideDecoder) (ask2 : Asker)
          (reserved2 : List String) (s2 : Config) (bfs2 : FS),
          create dp2 dO2 ask2 reserved2 s2 bfs2 targetDir st2 =
            (st2, some ("directory " ++ targetDir ++ " already exists"))) := by
  intro dp dO ask reserved s bfs targetDir st
  constructor
  · intro h
    simp [create, h]
  · intro st2 h dp2 dO2 ask2 reserved2 s2 bfs2
    have hex : st2.targetExists = true := by
      unfold create at h
      split at h
      · simp at h
      · split at h
        · simp at h
        · split at h
          · simp at h
          · have h1 := congrArg Prod.fst h
            simp only at h1
            rw [← h1]
    simp [create, hex]

/-- Witness for the C3 theorem: a pre-existing target makes `create` fail
and return the state unchanged. -/
theorem create_no_clobber_witness :
    create (fun _ => Except.error "d") (fun _ => Except.error "d")
        (fun _ => Except.error "d") [] ⟨[], []⟩ [] "/out" ⟨true, []⟩ =
      (⟨true, []⟩, some "directory /out already exists") := by
  have h := (create_no_clobber (fun _ => Except.error "d") (fun _ => Except.error "d")
    (fun _ => Except.error "d") [] ⟨[], []⟩ [] "/out" ⟨true, []⟩).1 rfl
  simpa using h

end Scafall

namespace Scafall

/-- C7: when the prompt file decodes to a prompt set naming a reserved
variable, or the override file decodes to a mapping with a reserved key
(with a clean prompt set), `create` fails with the reserved-variable
error of the offending file, for every asker identically (so before any
interactive prompting), and leaves the target state untouched. -/
theorem create_reserved_name_rejected :
    (∀ (dp : PromptDecoder) (dO : OverrideDecoder) (reserved : List String)
       (s : Config) (bfs : FS) (targetDir : String) (st : OsState)
       (pe : Entry) (ps : Prompts) (p : Prompt),
       st.targetExists = false →
       statFS bfs PromptFile = some pe →
       dp pe.content = Except.ok ps →
       p ∈ ps.prompts →
       contains reserved p.name = true →
       ∃ q : Prompt, contains reserved q.name = true ∧
         ∀ ask : Asker,
           create dp dO ask reserved s bfs targetDir st =
             (st, some (PromptFile ++ " file contains reserved variable: " ++ q.name)))
    ∧ (∀ (dp : PromptDecoder) (dO : OverrideDecoder) (reserved : List String)
         (s : Config) (bfs : FS) (targetDir : String) (st : OsState)
         (pe oe : Entry) (ps : Prompts) (ov : Bindings) (k v : String),
         st.targetExists = false →
         statFS bfs PromptFile = some pe →
         dp pe.content = Except.ok ps →
         (∀ q ∈ ps.prompts, contains reserved q.name = false) →
         statFS bfs OverrideFile = some oe →
         dO oe.content = Except.ok ov →
         (k, v) ∈ ov →
         contains reserved k = true →
         ∃ k2 : String, contains reserved k2 = true ∧
           ∀ ask : Asker,
             create dp dO ask reserved s bfs targetDir st =
               (st, some (OverrideFile ++ " file contains reserved variable: " ++ k2))) := by
  constructor
  · intro dp dO reserved s bfs targetDir st pe ps p hte hpe hdp hmem hres
    have hfind : (ps.prompts.find? (fun q => contains reserved q.name)).isSome :=
      List.find?_isSome.mpr ⟨p, hmem, hres⟩
    obtain ⟨q, hfq⟩ := Option.isSome_iff_exists.mp hfind
    have hq2 : contains reserved q.name = true := by
      have h2 := List.find?_some hfq
      simpa using h2
    refine ⟨q, hq2, ?_⟩
    intro ask
    have hrpf : readPromptFile dp reserved bfs PromptFile =
        Except.error (PromptFile ++ " file contains reserved variable: " ++ q.name) := by
      simp [readPromptFile, readFile, hpe, hdp, hfq]
    have hpp : promptPhase dp dO ask reserved s bfs =
        Except.error (PromptFile ++ " file contains reserved variable: " ++ q.name) := by
      simp [promptPhase, hpe, hrpf]
    simp [create, hte, hpp]
  · intro dp dO reserved s bfs targetDir st pe oe ps ov k v hte hpe hdp hclean hoe hdo hkmem hkres
    have hnone : ps.prompts.find? (fun q => contains reserved q.name) = none :=
      List.find?_eq_none.mpr (fun q hq => by simp [hclean q hq])
    have hrpf : readPromptFile dp reserved bfs PromptFile = Except.ok ps := by
      simp [readPromptFile, readFile, hpe, hdp, hnone]
    have hfind : (ov.find? (fun kv => contains reserved kv.1)).isSome :=
      List.find?_isSome.mpr ⟨(k, v), hkmem, hkres⟩
    obtain ⟨kv2, hfk⟩ := Option.isSome_iff_exists.mp hfind
    have hk2 : contains reserved kv2.1 = true := by
      have h2 := List.find?_some hfk
      simpa using h2
    refine ⟨kv2.1, hk2, ?_⟩
    intro ask
    have hro : readOverrides dO reserved bfs OverrideFile =
        Except.error (OverrideFile ++ " file contains reserved variable: " ++ kv2.1) := by
      simp [readOverrides, readFile, hoe, hdo, hfk]
    have hpp : promptPhase dp dO ask reserved s bfs =
        Except.error (OverrideFile ++ " file contains reserved variable: " ++ kv2.1) := by
      simp [promptPhase, hpe, hrpf, hoe, hro]
    simp [create, hte, hpp]

/-- Witness for the C7 theorem: a prompt set declaring the reserved name
x makes `create` fail with the reserved-variable error, with the state
unchanged, for a concrete asker. -/
theorem create_reserved_name_rejected_witness :
    ∃ q : Prompt, contains ["x"] q.name = true ∧
      ∀ ask : Asker,
        create (fun _ => Except.ok ⟨[⟨"x", "q", false, "", []⟩]⟩)
            (fun _ => Except.error "unused") ask ["x"] ⟨[], []⟩
            [⟨"/prompts.toml", false, "pdata", 420⟩] "/out" ⟨false, []⟩ =
          (⟨false, []⟩,
           some (PromptFile ++ " file contains reserved variable: " ++ q.name)) := by
  exact create_reserved_name_rejected.1
    (fun _ => Except.ok ⟨[⟨"x", "q", false, "", []⟩]⟩) (fun _ => Except.error "unused")
    ["x"] ⟨[], []⟩ [⟨"/prompts.toml", false, "pdata", 420⟩] "/out" ⟨false, []⟩
    ⟨"/prompts.toml", false, "pdata", 420⟩ ⟨[⟨"x", "q", false, "", []⟩]⟩
    ⟨"x", "q", false, "", []⟩ rfl (by decide) rfl (by simp) (by decide)

end Scafall

namespace Scafall

/-- Helper: consuming identifier characters inside a reference extends the
collected name buffer. -/
theorem parseLoop_ident_append :
    ∀ (nm : List Char) (buf rest : List Char),
      (∀ c ∈ nm, isIdentChar c = true) →
      parseLoop (.ident buf) (nm ++ rest) = parseLoop (.ident (buf ++ nm)) rest := by
  intro nm
  induction nm with
  | nil => intro buf rest _; simp
  | cons c cs ih =>
      intro buf rest h
      have hc : isIdentChar c = true := h c (List.mem_cons_self c cs)
      have hcs : ∀ d ∈ cs, isIdentChar d = true := fun d hd => h d (List.mem_cons_of_mem c hd)
      simp only [List.cons_append, parseLoop, hc, if_true]
      rw [List.append_eq, ih (buf ++ [c]) rest hcs]
      simp

/-- C1 amended: a template consisting of a reference to a variable name
that is unbound in the bindings does not fail; `transform` succeeds and
renders the empty string in place of the reference. -/
theorem transform_unbound_ref_empty :
    ∀ (env : Bindings) (name : String),
      name.data ≠ [] →
      (∀ c ∈ name.data, isIdentChar c = true) →
      env.lookup name = none →
      transform env ("\x7b\x7b." ++ name ++ "\x7d\x7d") = Except.ok "" := by
  intro env name hne hid hlk
  have hdata : ("\x7b\x7b." ++ name ++ "\x7d\x7d").data
      = '\x7b' :: '\x7b' :: '.' :: (name.data ++ ['\x7d', '\x7d']) := by
    simp [String.data_append]
  have hemp : name.data.isEmpty = false := by
    cases h : name.data with
    | nil => exact absurd h hne
    | cons a l => rfl
  have hparse : parseTemplate ("\x7b\x7b." ++ name ++ "\x7d\x7d")
      = some [Chunk.ref (String.mk name.data)] := by
    unfold parseTemplate
    rw [hdata]
    simp only [parseLoop, if_pos rfl]
    rw [parseLoop_ident_append name.data [] ['\x7d', '\x7d'] hid]
    have hnid : isIdentChar '\x7d' = false := by decide
    simp [parseLoop, hnid, hemp]
  have hlk2 : env.lookup (String.mk name.data) = none := hlk
  unfold transform
  rw [hparse]
  simp only [execChunks, List.map_cons, List.map_nil, execChunk, hlk2]
  rfl

/-- Witness for the C1 amended theorem at the unbound name n. -/
theorem transform_unbound_ref_empty_witness :
    transform [] "\x7b\x7b.n\x7d\x7d" = Except.ok "" :=
  transform_unbound_ref_empty [] "n" (by decide) (by decide) rfl

end Scafall

namespace ScafallPath

/-- Helper: a successful `Transform` never adds entries to the input tree. -/
theorem transform_ok_input_sub :
    ∀ (s : SourceFile) (inputDir outputDir : String) (vars : Scafall.Bindings)
      (w w2 : World),
      SourceFile.Transform s inputDir outputDir vars w = Except.ok w2 →
      ∀ e, e ∈ w2.input → e ∈ w.input := by
  intro s inputDir outputDir vars w w2 h e he
  unfold SourceFile.Transform at h
  cases hr : Replace vars s with
  | error er => rw [hr] at h; simp at h
  | ok of =>
      rw [hr] at h
      dsimp only at h
      by_cases hif : (of.fileContent == "") = true
      · rw [if_pos hif] at h
        cases hf : w.input.find? (fun e2 => e2.path == inputDir ++ "/" ++ s.filePath) with
        | none => rw [hf] at h; simp at h
        | some e2 =>
            rw [hf] at h
            have hw2 : World.mk
                (w.input.filter (fun e3 => !(e3.path == inputDir ++ "/" ++ s.filePath)))
                (w.output ++ [(outputDir ++ "/" ++ of.filePath, e2.content, e2.mode)]) = w2 := by
              simpa using h
            rw [← hw2] at he
            exact (List.mem_filter.mp he).1
      · rw [if_neg hif] at h
        have hw2 : World.mk w.input
            (w.output ++ [(outputDir ++ "/" ++ of.filePath, of.fileContent,
              Nat.lor of.fileMode 0o600)]) = w2 := by
          simpa using h
        rw [← hw2] at he
        exact he

/-- Helper: the `Apply` loop never adds entries to the input tree. -/
theorem applyWalk_input_sub :
    ∀ (inputDir outputDir : String) (vars : Scafall.Bindings)
      (fs : List SourceFile) (w : World) (e : DirEntry),
      e ∈ (ApplyWalk inputDir outputDir vars fs w).1.input → e ∈ w.input := by
  intro inputDir outputDir vars fs
  induction fs with
  | nil => intro w e he; exact he
  | cons f fs ih =>
      intro w e he
      unfold ApplyWalk at he
      cases ht : f.Transform inputDir outputDir vars w with
      | error er => rw [ht] at he; exact he
      | ok w2 =>
          rw [ht] at he
          exact transform_ok_input_sub f inputDir outputDir vars w w2 ht e (ih w2 e he)

/-- C9 amended: materialization mutates the source tree only by renaming
files whose substituted content is empty (every file not detected as
text, in particular) into the output: a successful `Transform` never adds
source entries, removes an entry only when it is the transformed file and
its `Replace` result has empty content, and preserves every other entry;
and `Apply` as a whole never adds entries to the source tree. -/
theorem materialize_moves_only_empty_content :
    (∀ (s : SourceFile) (inputDir outputDir : String) (vars : Scafall.Bindings)
       (w w2 : World),
       SourceFile.Transform s inputDir outputDir vars w = Except.ok w2 →
       (∀ e, e ∈ w2.input → e ∈ w.input) ∧
       (∀ e, e ∈ w.input → e ∉ w2.input →
         e.path = inputDir ++ "/" ++ s.filePath ∧
         ∃ p m, Replace vars s = Except.ok ⟨p, "", m⟩) ∧
       (∀ e, e ∈ w.input → e.path ≠ inputDir ++ "/" ++ s.filePath → e ∈ w2.input))
    ∧ (∀ (inputDir outputDir : String) (vars : Scafall.Bindings) (w : World)
         (e : DirEntry),
         e ∈ (Apply inputDir vars outputDir w).1.input → e ∈ w.input) := by
  constructor
  · intro s inputDir outputDir vars w w2 h
    refine ⟨transform_ok_input_sub s inputDir outputDir vars w w2 h, ?_, ?_⟩
    · intro e hin hnotin
      unfold SourceFile.Transform at h
      cases hr : Replace vars s with
      | error er => rw [hr] at h; simp at h
      | ok of =>
          rw [hr] at h
          dsimp only at h
          by_cases hif : (of.fileContent == "") = true
          · rw [if_pos hif] at h
            cases hf : w.input.find? (fun e2 => e2.path == inputDir ++ "/" ++ s.filePath) with
            | none => rw [hf] at h; simp at h
            | some e2 =>
                rw [hf] at h
                have hw2 : World.mk
                    (w.input.filter (fun e3 => !(e3.path == inputDir ++ "/" ++ s.filePath)))
                    (w.output ++ [(outputDir ++ "/" ++ of.filePath, e2.content, e2.mode)]) = w2 := by
                  simpa using h
                have hpath : e.path = inputDir ++ "/" ++ s.filePath := by
                  by_contra hne
                  apply hnotin
                  rw [← hw2]
                  refine List.mem_filter.mpr ⟨hin, ?_⟩
                  simp [hne]
                have hcont : of.fileContent = "" := by simpa using hif
                refine ⟨hpath, of.filePath, of.fileMode, ?_⟩
                rw [← hcont]
          · rw [if_neg hif] at h
            have hw2 : World.mk w.input
                (w.output ++ [(outputDir ++ "/" ++ of.filePath, of.fileContent,
                  Nat.lor of.fileMode 0o600)]) = w2 := by
              simpa using h
            rw [← hw2] at hnotin
            exact absurd hin hnotin
    · intro e hin hne
      unfold SourceFile.Transform at h
      cases hr : Replace vars s with
      | error er => rw [hr] at h; simp at h
      | ok of =>
          rw [hr] at h
          dsimp only at h
          by_cases hif : (of.fileContent == "") = true
          · rw [if_pos hif] at h
            cases hf : w.input.find? (fun e2 => e2.path == inputDir ++ "/" ++ s.filePath) with
            | none => rw [hf] at h; simp at h
            | some e2 =>
                rw [hf] at h
                have hw2 : World.mk
                    (w.input.filter (fun e3 => !(e3.path == inputDir ++ "/" ++ s.filePath)))
                    (w.output ++ [(outputDir ++ "/" ++ of.filePath, e2.content, e2.mode)]) = w2 := by
                  simpa using h
                rw [← hw2]
                refine List.mem_filter.mpr ⟨hin, ?_⟩
                simp [hne]
          · rw [if_neg hif] at h
            have hw2 : World.mk w.input
                (w.output ++ [(outputDir ++ "/" ++ of.filePath, of.fileContent,
                  Nat.lor of.fileMode 0o600)]) = w2 := by
              simpa using h
            rw [← hw2]
            exact hin
  · intro inputDir outputDir vars w e he
    exact applyWalk_input_sub inputDir outputDir vars
      (findTransformableFiles inputDir w.input) w e he

/-- Witness for the C9 amended theorem: transforming a text file with
nonempty content leaves the source entry in place. -/
theorem materialize_moves_only_empty_content_witness :
    (⟨"/t/a.txt", false, true, "hello", 420⟩ : DirEntry) ∈
      (World.mk [⟨"/t/a.txt", false, true, "hello", 420⟩] []).input := by
  exact (materialize_moves_only_empty_content.1 ⟨"a.txt", "hello", 420⟩ "/t" "/out" []
    (World.mk [⟨"/t/a.txt", false, true, "hello", 420⟩] [])
    (World.mk [⟨"/t/a.txt", false, true, "hello", 420⟩]
      [("/out/a.txt", "hello", Nat.lor 420 0o600)]) rfl).1
    ⟨"/t/a.txt", false, true, "hello", 420⟩ (by simp)

end ScafallPath

namespace ScafallPath

/-- Helper: every file collected by the walk originates from a
non-directory entry of the tree that is neither named in the ignore list
nor README-prefixed, and keeps that entry's input-relative path. -/
theorem walkFiles_origin :
    ∀ (dir : String) (tree : List DirEntry) (skips : List String) (sf : SourceFile),
      sf ∈ walkFiles dir tree skips →
      ∃ e, e ∈ tree ∧ e.isDir = false ∧
        Scafall.contains IgnoredNames (nameOf e.path) = false ∧
        Scafall.strStarts (dir ++ "/README") e.path = false ∧
        sf.filePath = relPathOf (dir ++ "/") e.path := by
  intro dir tree
  induction tree with
  | nil => intro skips sf h; simp [walkFiles] at h
  | cons e es ih =>
      intro skips sf h
      unfold walkFiles at h
      by_cases h1 : underAny skips e.path = true
      · rw [if_pos h1] at h
        obtain ⟨e0, he0, rest⟩ := ih skips sf h
        exact ⟨e0, List.mem_cons_of_mem e he0, rest⟩
      · rw [if_neg h1] at h
        by_cases h2 : e.isDir = true
        · rw [if_pos h2] at h
          by_cases h3 : Scafall.contains IgnoredDirectories (nameOf e.path) = true
          · rw [if_pos h3] at h
            obtain ⟨e0, he0, rest⟩ := ih (e.path :: skips) sf h
            exact ⟨e0, List.mem_cons_of_mem e he0, rest⟩
          · rw [if_neg h3] at h
            obtain ⟨e0, he0, rest⟩ := ih skips sf h
            exact ⟨e0, List.mem_cons_of_mem e he0, rest⟩
        · rw [if_neg h2] at h
          by_cases h4 : (Scafall.contains IgnoredNames (nameOf e.path)
              || Scafall.strStarts (dir ++ "/README") e.path) = true
          · rw [if_pos h4] at h
            obtain ⟨e0, he0, rest⟩ := ih skips sf h
            exact ⟨e0, List.mem_cons_of_mem e he0, rest⟩
          · rw [if_neg h4] at h
            have h4a : Scafall.contains IgnoredNames (nameOf e.path) = false := by
              rcases Bool.or_eq_false_iff.mp (Bool.eq_false_iff.mpr h4) with ⟨ha, _⟩
              exact ha
            have h4b : Scafall.strStarts (dir ++ "/README") e.path = false := by
              rcases Bool.or_eq_false_iff.mp (Bool.eq_false_iff.mpr h4) with ⟨_, hb⟩
              exact hb
            have h2f : e.isDir = false := by simpa using h2
            rcases List.mem_cons.mp h with hhd | htl
            · refine ⟨e, List.mem_cons_self e es, h2f, h4a, h4b, ?_⟩
              by_cases h5 : e.isText = true
              · rw [if_pos h5] at hhd; rw [hhd]
              · rw [if_neg h5] at hhd; rw [hhd]
            · obtain ⟨e0, he0, rest⟩ := ih skips sf htl
              exact ⟨e0, List.mem_cons_of_mem e he0, rest⟩

/-- C10: every file materialized by `findTransformableFiles` originates
from an entry whose walk path does not begin with the input root's README
prefix (and is not an ignore-listed name); hence any file whose path
begins with that README prefix, top-level README files in particular, is
excluded from the output tree. -/
theorem findTransformableFiles_excludes_readme :
    ∀ (dir : String) (tree : List DirEntry) (sf : SourceFile),
      sf ∈ findTransformableFiles dir tree →
      ∃ e, e ∈ tree ∧ e.isDir = false ∧
        Scafall.contains IgnoredNames (nameOf e.path) = false ∧
        Scafall.strStarts (dir ++ "/README") e.path = false ∧
        sf.filePath = relPathOf (dir ++ "/") e.path :=
  fun dir tree sf h => walkFiles_origin dir tree [] sf h

/-- Witness for the C10 theorem: in a source holding a top-level
README.md and a regular file, the only materialized file originates from
the non-README entry. -/
theorem findTransformableFiles_excludes_readme_witness :
    ∃ e, e ∈ ([⟨"/t/README.md", false, true, "r", 420⟩,
               ⟨"/t/a.txt", false, true, "x", 420⟩] : List DirEntry) ∧
      e.isDir = false ∧
      Scafall.contains IgnoredNames (nameOf e.path) = false ∧
      Scafall.strStarts ("/t" ++ "/README") e.path = false ∧
      (SourceFile.mk "a.txt" "x" 420).filePath = relPathOf ("/t" ++ "/") e.path := by
  exact findTransformableFiles_excludes_readme "/t"
    [⟨"/t/README.md", false, true, "r", 420⟩, ⟨"/t/a.txt", false, true, "x", 420⟩]
    ⟨"a.txt", "x", 420⟩ (by decide)

end ScafallPath
